import Mathlib

/-!
Shallow embedding of the HTTP streaming input plugin
(src/input/CurlInputPlugin.cxx) of the MPD repository excerpt, together
with proofs of the specification's claims about it.

Conventions of the embedding:
* byte payloads are `List Nat` (one `Nat` per byte), header lines are
  `List Char`;
* machine integers `size_t` become `Nat`, `goffset`/`long` become `Int`;
* the libcurl easy handle is modelled by a `Bool` field (`easy`) that says
  whether the per-transfer handle is live, plus the request options the
  plugin sets on it that the claims mention (`range`, `request_headers`);
* cross-thread waits (condition variables, `io_thread_call`) are modelled
  by `Option`-valued results (`none` = the call blocks / does not return)
  or by explicit result constructors (`SeekResult.pending`);
* `while` loops whose termination rests on run-time invariants of the C
  code are given an explicit fuel argument that is always large enough on
  states satisfying those invariants; fuel exhaustion corresponds to the
  C code not terminating.

The class `IcyMetaDataParser` lives in IcyMetaDataParser.hxx/.cxx, which
is not part of the excerpt; it is modelled from the spec (section 4.1)
below.  Likewise `input_stream_init` (input_internal.h) is modelled from
the spec's data-model section.
-/

/-- `CURL_MAX_BUFFERED`: do not buffer more than this number of bytes. -/
def CURL_MAX_BUFFERED : Nat := 512 * 1024

/-- `CURL_RESUME_AT`: resume the stream at this number of bytes after it
has been paused. -/
def CURL_RESUME_AT : Nat := 384 * 1024

/-- The libcurl sentinel `CURL_WRITEFUNC_PAUSE` returned by a write
callback to pause the transfer. -/
def CURL_WRITEFUNC_PAUSE : Nat := 0x10000001

/-- One buffer created by `input_curl_writefunction`: payload `data` of
length `size`, of which the first `consumed` bytes have been read. -/
structure CurlInputBuffer where
  size : Nat
  consumed : Nat
  data : List Nat
deriving DecidableEq

/-- The constructor `CurlInputBuffer(_data, _size)`: copies `_size` bytes
from `_data`, `consumed` starts at 0. -/
def CurlInputBuffer.make (d : List Nat) (sz : Nat) : CurlInputBuffer :=
  { size := sz, consumed := 0, data := d.take sz }

/-- `CurlInputBuffer::Begin`: the not-yet-consumed payload. -/
def CurlInputBuffer.Begin (b : CurlInputBuffer) : List Nat :=
  b.data.drop b.consumed

/-- `CurlInputBuffer::TotalSize`. -/
def CurlInputBuffer.TotalSize (b : CurlInputBuffer) : Nat := b.size

/-- `CurlInputBuffer::Available`. -/
def CurlInputBuffer.Available (b : CurlInputBuffer) : Nat :=
  b.size - b.consumed

/-!  The ICY metadata parser, modelled from the spec. -/

/-- Modelled from the spec: the state machine of section 4.1,
`{InRun, InLength, InMeta}`.  `inRun rest` carries the number of audio
bytes left in the current run; `inMeta rest acc` carries the number of
metadata bytes still missing from the current block and the block bytes
accumulated so far. -/
inductive IcyState where
  | inRun (rest : Nat)
  | inLength
  | inMeta (rest : Nat) (acc : List Nat)
deriving DecidableEq

/-- Modelled from the spec: the `IcyMetaDataParser` object of
IcyMetaDataParser.hxx, which is not part of the repository excerpt.
`enabled` is `IsDefined()`, `data_size` is the stride, `tag` is the
pending `StreamTitle` text of the last completed metadata block. -/
structure IcyMetaDataParser where
  enabled : Bool
  data_size : Nat
  st : IcyState
  tag : Option (List Nat)
deriving DecidableEq

/-- A freshly constructed (inactive) parser. -/
def IcyMetaDataParser.init : IcyMetaDataParser :=
  { enabled := false, data_size := 0, st := .inRun 0, tag := none }

/-- Modelled from the spec: `IcyMetaDataParser::Start(stride)`. -/
def IcyMetaDataParser.Start (p : IcyMetaDataParser) (k : Nat) :
    IcyMetaDataParser :=
  { p with enabled := true, data_size := k, st := .inRun k }

/-- Modelled from the spec: `IcyMetaDataParser::IsDefined()`. -/
def IcyMetaDataParser.IsDefined (p : IcyMetaDataParser) : Bool := p.enabled

/-- Modelled from the spec: `data(limit)` returns the length of the
leading audio run (`min` of remaining-in-run and `limit`); a parser that
was never started treats everything as audio.  Returns the count and the
advanced parser. -/
def IcyMetaDataParser.Data (p : IcyMetaDataParser) (limit : Nat) :
    Nat × IcyMetaDataParser :=
  if ¬p.enabled then (limit, p)
  else
    match p.st with
    | .inRun rest =>
      let n := min rest limit
      (n, { p with st := if rest - n = 0 then .inLength else .inRun (rest - n) })
    | _ => (0, p)

/-- Bytes of the literal `StreamTitle='` (39 is the ASCII apostrophe). -/
def streamTitleKey : List Nat :=
  ("StreamTitle=".toList.map Char.toNat) ++ [39]

/-- Drop everything up to and including the first occurrence of `key`;
`none` when `key` does not occur. -/
def dropThroughKey (key : List Nat) : List Nat → Option (List Nat)
  | [] => none
  | x :: xs =>
    if key.isPrefixOf (x :: xs) then some ((x :: xs).drop key.length)
    else dropThroughKey key xs

/-- Take the title text up to the closing apostrophe-semicolon
(bytes 39, 59); `none` when the block is malformed (no terminator). -/
def takeTitle : List Nat → Option (List Nat)
  | [] => none
  | 39 :: 59 :: _ => some []
  | x :: xs => (takeTitle xs).map (fun t => x :: t)

/-- Strip the NUL padding at the tail of a metadata block. -/
def dropTrailingNuls (l : List Nat) : List Nat :=
  (l.reverse.dropWhile (fun b => b = 0)).reverse

/-- Modelled from the spec: parse one complete metadata block into the
`StreamTitle` value; malformed blocks yield `none` and are discarded. -/
def parseStreamTitle (l : List Nat) : Option (List Nat) :=
  (dropThroughKey streamTitleKey (dropTrailingNuls l)).bind takeTitle

/-- Modelled from the spec: the `InMeta` portion of `meta(buf, limit)`:
consume up to `limit` bytes of the current block (`rest` still missing,
`acc` accumulated); on completion parse the block and return to audio
mode. -/
def IcyMetaDataParser.metaConsume (p : IcyMetaDataParser) (rest : Nat)
    (acc : List Nat) (buf : List Nat) (limit : Nat) :
    Nat × IcyMetaDataParser :=
  let n := min rest limit
  let taken := buf.take n
  if rest - n = 0 then
    let block := acc ++ taken
    let tag' := match parseStreamTitle block with
      | some t => some t
      | none => p.tag
    (n, { p with st := .inRun p.data_size, tag := tag' })
  else
    (n, { p with st := .inMeta (rest - n) (acc ++ taken) })

/-- Modelled from the spec: `meta(buf, limit)` consumes up to `limit`
leading metadata bytes from `buf`: in `InLength` it reads the length byte
`L` (L = 0 returns straight to audio mode, otherwise `16 L` block bytes
follow) and continues into the block; in `InMeta` it continues the
current block.  Returns the number of bytes consumed. -/
def IcyMetaDataParser.Meta (p : IcyMetaDataParser) (buf : List Nat)
    (limit : Nat) : Nat × IcyMetaDataParser :=
  if ¬p.enabled then (0, p)
  else
    match p.st with
    | .inRun _ => (0, p)
    | .inMeta rest acc => p.metaConsume rest acc buf limit
    | .inLength =>
      match buf, limit with
      | b :: bufRest, Nat.succ lim =>
        if b = 0 then (1, { p with st := .inRun p.data_size })
        else
          let r := IcyMetaDataParser.metaConsume p (16 * b) [] bufRest lim
          (1 + r.1, r.2)
      | _, _ => (0, p)

/-- Modelled from the spec: `ReadTag()` hands out the pending tag and
clears it. -/
def IcyMetaDataParser.ReadTag (p : IcyMetaDataParser) :
    Option (List Nat) × IcyMetaDataParser :=
  (p.tag, { p with tag := none })

/-- A tag object, opaque to the subsystem: the items the plugin can add
are `TAG_NAME` (from the icy-name response headers) and `TAG_TITLE`
(from `StreamTitle`). -/
structure tag_t where
  name : Option (List Char)
  title : Option (List Nat)
deriving DecidableEq

/-- `struct input_curl` together with its embedded
`struct input_stream base`.  The `base` fields (`ready`, `seekable`,
`size`, `offset`, `mime`, `uri`) follow `input_stream_init` of
input_internal.h, which is not part of the excerpt; their initial values
are modelled from the spec's data model (section 3): not ready, not
seekable, offset 0, size unknown (negative).  `easy` models whether the
libcurl easy handle is live; `range` models the `CURLOPT_RANGE` option
set on the current easy handle; `request_headers` the
`CURLOPT_HTTPHEADER` list. -/
structure input_curl where
  uri : List Char
  easy : Bool
  range : Option String
  request_headers : List String
  buffers : List CurlInputBuffer
  paused : Bool
  icy : IcyMetaDataParser
  meta_name : Option (List Char)
  tag : Option tag_t
  postponed_error : Bool
  ready : Bool
  seekable : Bool
  size : Int
  offset : Int
  mime : Option (List Char)
deriving DecidableEq

/-- The `input_curl` constructor plus `input_stream_init`. -/
def input_curl.make (url : List Char) : input_curl :=
  { uri := url, easy := false, range := none, request_headers := [],
    buffers := [], paused := false, icy := IcyMetaDataParser.init,
    meta_name := none, tag := none, postponed_error := false,
    ready := false, seekable := false, size := -1, offset := 0,
    mime := none }

/-- `curl_total_buffer_size`: total of the `TotalSize` of all buffers,
including portions already consumed. -/
def curl_total_buffer_size (c : input_curl) : Nat :=
  (c.buffers.map CurlInputBuffer.TotalSize).sum

/-- `input_curl_writefunction(ptr, size, nmemb, stream)`.  `ptr` holds
the incoming bytes, the effective length is `size * nmemb`.  If the
total buffered size plus the incoming length reaches
`CURL_MAX_BUFFERED`, sets `paused` and returns `CURL_WRITEFUNC_PAUSE`
without copying; otherwise appends a new buffer, sets `ready` and
signals the consumer.  Returns the pair (return value, new state). -/
def input_curl_writefunction (ptr : List Nat) (size nmemb : Nat)
    (c : input_curl) : Nat × input_curl :=
  let sz := size * nmemb
  if sz = 0 then (0, c)
  else if CURL_MAX_BUFFERED ≤ curl_total_buffer_size c + sz then
    (CURL_WRITEFUNC_PAUSE, { c with paused := true })
  else
    (sz, { c with buffers := c.buffers ++ [CurlInputBuffer.make ptr sz],
                  ready := true })

/-- `input_curl_eof`: transfer ended (easy handle cleared) and the
buffer queue is empty. -/
def input_curl_eof (c : input_curl) : Bool :=
  ¬c.easy ∧ c.buffers.isEmpty

/-- `input_curl_available`. -/
def input_curl_available (c : input_curl) : Bool :=
  c.postponed_error ∨ ¬c.easy ∨ ¬c.buffers.isEmpty

/-- `input_curl_tag`: hands out the pending tag and clears it. -/
def input_curl_tag (c : input_curl) : Option tag_t × input_curl :=
  (c.tag, { c with tag := none })

/-- `input_curl_check`: surfaces and clears a latched error. -/
def input_curl_check (c : input_curl) : Bool × input_curl :=
  (¬c.postponed_error, { c with postponed_error := false })

/-!  The consumer read path: `fill_buffer`, `read_from_buffer`,
`copy_icy_tag`, `input_curl_read`. -/

/-- Total number of not-yet-consumed bytes over a buffer list (used only
to size the fuel of the embedded loops). -/
def buffers_available (bs : List CurlInputBuffer) : Nat :=
  (bs.map CurlInputBuffer.Available).sum

/-- Outcome of one arm of the `while (true)` loop body of
`read_from_buffer`: either the loop breaks with a result (audio bytes
copied so far, parser, remaining buffer list), or it falls through with
updated loop variables (parser, front buffer, remaining `length`,
audio bytes so far). -/
inductive RfbStep where
  | done (nbytes : Nat) (icy : IcyMetaDataParser) (buffers : List CurlInputBuffer)
  | cont (icy : IcyMetaDataParser) (buf : CurlInputBuffer) (length : Nat) (nbytes : Nat)

/-- The `icy.Data` arm of the loop body of `read_from_buffer`: when the
audio chunk is positive, `buffer.Read` consumes it (`empty` is the
negated return of `Consume`, i.e. `consumed` reached `size`); the loop
breaks when the buffer is emptied (popping it) or `length` is
exhausted. -/
def rfb_data_step (icy : IcyMetaDataParser) (buf : CurlInputBuffer)
    (rest : List CurlInputBuffer) (length nbytes : Nat) : RfbStep :=
  let r := icy.Data length
  let chunk := r.1
  let icy1 := r.2
  if 0 < chunk then
    let consumed1 := buf.consumed + chunk
    let nbytes1 := nbytes + chunk
    let length1 := length - chunk
    if consumed1 < buf.size then
      if length1 = 0 then
        .done nbytes1 icy1 ({ buf with consumed := consumed1 } :: rest)
      else .cont icy1 { buf with consumed := consumed1 } length1 nbytes1
    else .done nbytes1 icy1 rest
  else .cont icy1 buf length nbytes

/-- The `icy.Meta` arm of the loop body of `read_from_buffer`: metadata
bytes are consumed from the buffer but not copied to the destination;
the loop breaks when the buffer is emptied or `length` is exhausted.
When the metadata arm consumes nothing the embedding returns (in the C
code this state would loop forever; it is unreachable because a
positive `length` and a non-empty front buffer always let one of the
two arms make progress). -/
def rfb_meta_step (icy : IcyMetaDataParser) (buf : CurlInputBuffer)
    (rest : List CurlInputBuffer) (length nbytes : Nat) : RfbStep :=
  let r := icy.Meta buf.Begin length
  let chunk := r.1
  let icy2 := r.2
  if 0 < chunk then
    let consumed2 := buf.consumed + chunk
    let length2 := length - chunk
    if consumed2 < buf.size then
      if length2 = 0 then
        .done nbytes icy2 ({ buf with consumed := consumed2 } :: rest)
      else .cont icy2 { buf with consumed := consumed2 } length2 nbytes
    else .done nbytes icy2 rest
  else .done nbytes icy2 (buf :: rest)

/-- The `while (true)` loop of `read_from_buffer`: alternate the audio
and metadata arms until a break.  Each full iteration consumes at least
one byte of the front buffer, so fuel `length + 1` (supplied by
`read_from_buffer`) never runs out on reachable states. -/
def rfb_loop : Nat → IcyMetaDataParser → CurlInputBuffer →
    List CurlInputBuffer → Nat → Nat →
    Nat × IcyMetaDataParser × List CurlInputBuffer
  | 0, icy, buf, rest, _, nbytes => (nbytes, icy, buf :: rest)
  | fuel + 1, icy, buf, rest, length, nbytes =>
    match rfb_data_step icy buf rest length nbytes with
    | .done nb i bs => (nb, i, bs)
    | .cont i b len nb =>
      match rfb_meta_step i b rest len nb with
      | .done nb2 i2 bs2 => (nb2, i2, bs2)
      | .cont i2 b2 len2 nb2 => rfb_loop fuel i2 b2 rest len2 nb2

/-- `read_from_buffer(icy, buffers, dest, length)`: reads from the front
buffer, splitting audio from inline metadata; returns the number of
audio bytes copied, the advanced parser and the updated buffer list
(the front buffer is popped when fully consumed). -/
def read_from_buffer (icy : IcyMetaDataParser)
    (buffers : List CurlInputBuffer) (length : Nat) :
    Nat × IcyMetaDataParser × List CurlInputBuffer :=
  match buffers with
  | [] => (0, icy, [])
  | buf :: rest =>
    let length' := if buf.Available < length then buf.Available else length
    rfb_loop (length' + 1) icy buf rest length' 0

/-- `fill_buffer`: waits while the easy handle is live and the buffer
list is empty (`none` models that the wait never ends within this call);
then surfaces a postponed error (returning `false`), else reports
whether a buffer is present. -/
def fill_buffer (c : input_curl) : Option (Bool × input_curl) :=
  if c.easy ∧ c.buffers.isEmpty then none
  else if c.postponed_error then some (false, { c with postponed_error := false })
  else some (!c.buffers.isEmpty, c)

/-- The inner `while (size > 0 && !c->buffers.empty())` loop of
`input_curl_read`; the fuel (supplied by the caller) covers every
iteration on reachable states, where each `read_from_buffer` call
consumes at least one byte or pops a buffer. -/
def read_drain : Nat → IcyMetaDataParser → List CurlInputBuffer →
    Nat → Nat → Nat × IcyMetaDataParser × List CurlInputBuffer
  | 0, icy, buffers, _, nbytes => (nbytes, icy, buffers)
  | fuel + 1, icy, buffers, size, nbytes =>
    if size = 0 ∨ buffers.isEmpty then (nbytes, icy, buffers)
    else
      let r := read_from_buffer icy buffers size
      read_drain fuel r.2.1 r.2.2 (size - r.1) (nbytes + r.1)

/-- `copy_icy_tag`: moves the parser's pending tag into `c->tag`,
adding the latched `meta_name` as a `TAG_NAME` item when the tag has
none. -/
def copy_icy_tag (c : input_curl) : input_curl :=
  let r := c.icy.ReadTag
  match r.1 with
  | none => c
  | some title =>
    let t : tag_t := { name := none, title := some title }
    let t :=
      match c.meta_name with
      | some mn => if t.name = none then { t with name := some mn } else t
      | none => t
    { c with icy := r.2, tag := some t }

/-- The `do { fill the buffer; send buffer contents } while (nbytes==0)`
loop of `input_curl_read`.  Result `some (false, 0, c')` is the early
`return 0` when `fill_buffer` fails; `some (true, nbytes, c')` is the
loop exiting with audio bytes; `none` means the call blocks (or, with
`size = 0`, never terminates).  Two rounds always suffice: a round that
produced no audio has drained the buffer list, so the next
`fill_buffer` either blocks or fails. -/
def read_do_while : Nat → input_curl → Nat → Option (Bool × Nat × input_curl)
  | 0, _, _ => none
  | fuel + 1, c, size =>
    match fill_buffer c with
    | none => none
    | some (false, c') => some (false, 0, c')
    | some (true, c') =>
      let r := read_drain (size + buffers_available c'.buffers + c'.buffers.length + 1)
        c'.icy c'.buffers size 0
      let c'' := { c' with icy := r.2.1, buffers := r.2.2 }
      if r.1 = 0 then read_do_while fuel c'' size
      else some (true, r.1, c'')

/-- `input_curl_read(is, ptr, size)`: returns `some (nbytes, resumed,
c')` where `nbytes` is the return value (audio bytes copied; 0 on EOF or
error), `resumed` records whether this call scheduled a resume on the
I/O thread (which clears `paused`), and `c'` is the stream afterwards;
`none` models a call that blocks.  After a round with audio bytes the
pending ICY tag is copied, `offset` is advanced by the bytes returned,
and a resume is scheduled when the stream is paused and the buffered
total fell below `CURL_RESUME_AT`. -/
def input_curl_read (c : input_curl) (size : Nat) :
    Option (Nat × Bool × input_curl) :=
  match read_do_while 2 c size with
  | none => none
  | some (false, _, c') => some (0, false, c')
  | some (true, nbytes, c') =>
    let c1 := if c'.icy.IsDefined then copy_icy_tag c' else c'
    let c2 := { c1 with offset := c1.offset + (nbytes : Int) }
    if c2.paused ∧ curl_total_buffer_size c2 < CURL_RESUME_AT then
      some (nbytes, true, { c2 with paused := false })
    else some (nbytes, false, c2)

/-!  The header callback. -/

/-- `g_ascii_isspace`. -/
def g_ascii_isspace (c : Char) : Bool :=
  c.toNat = 32 || c.toNat = 9 || c.toNat = 10 || c.toNat = 11 ||
  c.toNat = 12 || c.toNat = 13

/-- `g_ascii_tolower`. -/
def g_ascii_tolower (c : Char) : Char :=
  if 65 ≤ c.toNat ∧ c.toNat ≤ 90 then Char.ofNat (c.toNat + 32) else c

/-- `g_ascii_strcasecmp(a, b) == 0`: ASCII case-insensitive equality. -/
def strcasecmp_eq (a b : List Char) : Bool :=
  a.map g_ascii_tolower == b.map g_ascii_tolower

/-- The `while (value < end && g_ascii_isspace(*value)) ++value` loop:
advance index `v` over spaces, staying below `e`.  The fuel `e - v`
covers every iteration, since each one increments `v`. -/
def strip_value_start_go : Nat → List Char → Nat → Nat → Nat
  | 0, _, v, _ => v
  | fuel + 1, l, v, e =>
    if v < e ∧ g_ascii_isspace (l.getD v (Char.ofNat 0)) then
      strip_value_start_go fuel l (v + 1) e
    else v

/-- Entry point of the leading-space strip loop. -/
def strip_value_start (l : List Char) (v e : Nat) : Nat :=
  strip_value_start_go (e - v) l v e

/-- The `while (end > value && g_ascii_isspace(end[-1])) --end` loop:
move index `e` back over trailing spaces, staying above `v`.  The fuel
`e - v` covers every iteration, since each one decrements `e`. -/
def strip_value_end_go : Nat → List Char → Nat → Nat → Nat
  | 0, _, _, e => e
  | fuel + 1, l, v, e =>
    if v < e ∧ g_ascii_isspace (l.getD (e - 1) (Char.ofNat 0)) then
      strip_value_end_go fuel l v (e - 1)
    else e

/-- Entry point of the trailing-space strip loop. -/
def strip_value_end (l : List Char) (v e : Nat) : Nat :=
  strip_value_end_go (e - v) l v e

/-- `g_ascii_strtoull(buffer, NULL, 10)` on an already-stripped value:
read leading decimal digits. -/
def g_ascii_strtoull : List Char → Nat → Nat
  | [], acc => acc
  | c :: cs, acc =>
    if 48 ≤ c.toNat ∧ c.toNat ≤ 57 then
      g_ascii_strtoull cs (acc * 10 + (c.toNat - 48))
    else acc

/-- The slice `[v, e)` of a header line (the bytes
`memcpy(buffer, value, end - value)` copies). -/
def header_slice (l : List Char) (v e : Nat) : List Char :=
  (l.take e).drop v

/-- `input_curl_headerfunction(ptr, size, nmemb, stream)` for one header
line `l` (the `size * nmemb` bytes libcurl passes).  Finds the colon,
bounds-checks the name against the 64-byte stack array, strips the
value, and dispatches on the recognised header names.  The C return
value is always `size`, so only the updated stream state is returned. -/
def input_curl_headerfunction (l : List Char) (c : input_curl) : input_curl :=
  match l.findIdx? (fun ch => ch == ':') with
  | none => c
  | some k =>
    if 64 ≤ k then c
    else
      let name := l.take k
      let v := strip_value_start l (k + 1) l.length
      let e := strip_value_end l v l.length
      if strcasecmp_eq name "accept-ranges".toList then
        if ¬c.icy.IsDefined then { c with seekable := true } else c
      else if strcasecmp_eq name "content-length".toList then
        if 64 ≤ e then c
        else { c with size := c.offset + (g_ascii_strtoull (header_slice l v e) 0 : Int) }
      else if strcasecmp_eq name "content-type".toList then
        { c with mime := some (header_slice l v e) }
      else if strcasecmp_eq name "icy-name".toList ||
              strcasecmp_eq name "ice-name".toList ||
              strcasecmp_eq name "x-audiocast-name".toList then
        let mn := header_slice l v e
        { c with meta_name := some mn,
                 tag := some { name := some mn, title := none } }
      else if strcasecmp_eq name "icy-metaint".toList then
        if 64 ≤ e ∨ c.icy.IsDefined then c
        else
          let icy_metaint := g_ascii_strtoull (header_slice l v e) 0
          if 0 < icy_metaint then
            { c with icy := c.icy.Start icy_metaint, seekable := false }
          else c
      else c

/-- Process a sequence of response header lines through
`input_curl_headerfunction`. -/
def process_headers (ls : List (List Char)) (c : input_curl) : input_curl :=
  ls.foldl (fun s l => input_curl_headerfunction l s) c

/-- The byte counts of the `memcpy` calls into the two 64-byte stack
arrays (`name[64]`, `buffer[64]`) that `input_curl_headerfunction` can
perform on header line `l`: first the name copy (length = colon
position, guarded by `< 64`), then the value copy of the
`content-length` / `icy-metaint` branches (length `end - value`, guarded
by `end - header < 64`).  The value copy of the `icy-metaint` branch is
additionally skipped when the ICY parser is already active, so for any
stream state the copies actually performed are a subset of this list.
Each copy of `n` bytes is followed by a NUL store at index `n`, so all
stores are in bounds exactly when every listed `n` is below 64. -/
def header_copy_lengths (l : List Char) : List Nat :=
  match l.findIdx? (fun ch => ch == ':') with
  | none => []
  | some k =>
    if 64 ≤ k then []
    else
      let name := l.take k
      let v := strip_value_start l (k + 1) l.length
      let e := strip_value_end l v l.length
      k :: (if (strcasecmp_eq name "content-length".toList ||
                strcasecmp_eq name "icy-metaint".toList) ∧ e < 64 then
              [e - v]
            else [])

/-!  Seek. -/

/-- Result of `input_curl_seek`: `ok`/`fail` are the function returning
`true`/`false` with the stream in the given state; `assertviol` models
the `assert(is->ready)` firing; `pending` models the function having
aborted the old transfer, re-initialised a new one and now blocking on
`while (!c->base.ready) g_cond_wait(...)` — the carried state is the
stream at that point. -/
inductive SeekResult where
  | ok (c : input_curl)
  | fail (c : input_curl)
  | assertviol
  | pending (c : input_curl)
deriving DecidableEq

/-- `input_curl_easy_free`: frees the easy handle and everything
associated with it (request headers, range string); does nothing when
the handle is already gone. -/
def input_curl_easy_free (c : input_curl) : input_curl :=
  if ¬c.easy then c
  else { c with easy := false, request_headers := [], range := none }

/-- `input_curl_easy_init`: allocates a fresh easy handle (modelled as
always succeeding), sets the plugin's transfer options and the
`Icy-Metadata: 1` request header.  A fresh handle carries no
`CURLOPT_RANGE`. -/
def input_curl_easy_init (c : input_curl) : input_curl :=
  { c with easy := true, range := none,
           request_headers := ["Icy-Metadata: 1"] }

/-- The absolute target offset computed by the `switch (whence)` of
`input_curl_seek` (`SEEK_SET` = 0, `SEEK_CUR` = 1, `SEEK_END` = 2):
`none` when the switch returns `false` (unknown size for `SEEK_END`, or
an unrecognised `whence`). -/
def seek_target (c : input_curl) (offset : Int) (whence : Int) : Option Int :=
  if whence = 0 then some offset
  else if whence = 1 then some (offset + c.offset)
  else if whence = 2 then
    if c.size < 0 then none else some (offset + c.size)
  else none

/-- The `while (offset > is->offset && !c->buffers.empty())`
fast-forward loop of `input_curl_seek`: consume already-buffered bytes
up to the target.  Fuel as in the other loops. -/
def seek_fast_forward : Nat → List CurlInputBuffer → Int → Int →
    List CurlInputBuffer × Int
  | 0, buffers, cur, _ => (buffers, cur)
  | fuel + 1, buffers, cur, target =>
    if cur < target then
      match buffers with
      | [] => (buffers, cur)
      | buf :: rest =>
        let length :=
          if (target - cur) < (buf.Available : Int) then (target - cur).toNat
          else buf.Available
        if buf.consumed + length < buf.size then
          seek_fast_forward fuel ({ buf with consumed := buf.consumed + length } :: rest)
            (cur + length) target
        else seek_fast_forward fuel rest (cur + length) target
    else (buffers, cur)

/-- `input_curl_seek(is, offset, whence)`.  Asserts `ready`; a
`SEEK_SET` to the current offset is a no-op; non-seekable streams are
rejected; the absolute target is computed, negative targets rejected;
buffered data is fast-forwarded; if the target was not reached the old
transfer is aborted, the buffers cleared, and either the seek
short-circuits at EOF (target = size) or a new transfer is initialised
with a `Range: N-` header for positive targets, after which the call
blocks until ready (`pending`). -/
def input_curl_seek (c : input_curl) (offset : Int) (whence : Int) :
    SeekResult :=
  if ¬c.ready then .assertviol
  else if whence = 0 ∧ offset = c.offset then .ok c
  else if ¬c.seekable then .fail c
  else
    match seek_target c offset whence with
    | none => .fail c
    | some target =>
      if target < 0 then .fail c
      else
        let ff := seek_fast_forward (c.buffers.length + (target - c.offset).toNat + 1)
          c.buffers c.offset target
        let c1 := { c with buffers := ff.1, offset := ff.2 }
        if target = c1.offset then .ok c1
        else
          let c2 := input_curl_easy_free c1
          let c3 := { c2 with buffers := [], offset := target }
          if c3.offset = c3.size then .ok c3
          else
            let c4 := input_curl_easy_init c3
            let c5 :=
              if 0 < c4.offset then
                { c4 with range := some (toString c4.offset ++ "-") }
              else c4
            .pending { c5 with ready := false }

/-- Projection used to observe a `pending` seek result: the target
offset, the `Range` option of the re-initialised transfer, and whether
the easy handle is live. -/
def seek_pending_info : SeekResult → Option (Int × Option String × Bool)
  | .pending c => some (c.offset, c.range, c.easy)
  | _ => none

/-!  Open. -/

/-- `strncmp(a, b, n) == 0`, with the C string semantics that the
comparison also stops at a NUL terminator (the end of either list). -/
def strncmp_eq : List Char → List Char → Nat → Bool
  | _, _, 0 => true
  | [], [], _ + 1 => true
  | [], b :: _, _ + 1 => b.toNat == 0
  | a :: _, [], _ + 1 => a.toNat == 0
  | a :: as, b :: bs, n + 1 =>
    if a = b then (if a.toNat = 0 then true else strncmp_eq as bs n)
    else false

/-- Result of `input_curl_open`: `notMine` is the `NULL` return with no
error set (URI scheme not `http://`), `opened` carries the new
stream.  The two libcurl-failure `NULL` returns (easy-init and
multi-add failure) are modelled as always succeeding. -/
inductive OpenResult where
  | notMine
  | opened (c : input_curl)
deriving DecidableEq

/-- `input_curl_open(url, mutex, cond)`: rejects URIs that do not begin
with `http://`, otherwise constructs the stream, initialises the easy
handle and registers it with the I/O thread. -/
def input_curl_open (url : List Char) : OpenResult :=
  if ¬strncmp_eq url "http://".toList 7 then .notMine
  else .opened (input_curl_easy_init (input_curl.make url))

/-!  The socket bridge (`CurlSockets`). -/

/-- The timeout-related state of `CurlSockets`. -/
structure CurlSockets where
  have_timeout : Bool
  absolute_timeout : Int
deriving DecidableEq

/-- `CurlSockets::PrepareSockets` (the `CURLM_OK` path), given the
current time `now` (`GetTime()`, microseconds) and the `timeout2`
milliseconds reported by `curl_multi_timeout`.  Returns the `timeout_r`
handed to the event loop and the updated state: a non-negative timeout
records the absolute deadline, values in `[0, 10)` are clamped to 10 ms,
negative values leave `have_timeout` false. -/
def CurlSockets.PrepareSockets (cs : CurlSockets) (now timeout2 : Int) :
    Int × CurlSockets :=
  let abs' := if 0 ≤ timeout2 then now + timeout2 * 1000 else cs.absolute_timeout
  let t := if 0 ≤ timeout2 ∧ timeout2 < 10 then 10 else timeout2
  (t, { have_timeout := 0 ≤ t, absolute_timeout := abs' })

/-- `CurlSockets::CheckSockets`: whether the recorded deadline has
elapsed. -/
def CurlSockets.CheckSockets (cs : CurlSockets) (now : Int) : Bool :=
  cs.have_timeout ∧ cs.absolute_timeout ≤ now

/-!  Operation traces used by the claims. -/

/-- Run a sequence of consumer `read` calls with the given sizes,
accumulating the sum of the return values; `none` when some call
blocks. -/
def run_reads : input_curl → List Nat → Option (Nat × input_curl)
  | c, [] => some (0, c)
  | c, n :: ns =>
    match input_curl_read c n with
    | none => none
    | some (r, _, c') =>
      match run_reads c' ns with
      | none => none
      | some (tot, c'') => some (r + tot, c'')

/-- An interleaving step for claim C3: a write-callback delivery of the
given bytes, or a consumer read of the given size. -/
inductive WROp where
  | write (ptr : List Nat)
  | readOp (n : Nat)

/-- Apply one `WROp`; a blocked read leaves the stream unchanged (the
buffer totals are observed at rest points). -/
def wr_step (c : input_curl) : WROp → input_curl
  | .write ptr => (input_curl_writefunction ptr ptr.length 1 c).2
  | .readOp n =>
    match input_curl_read c n with
    | some (_, _, c') => c'
    | none => c

/-- Run an interleaving of writes and reads. -/
def wr_run (c : input_curl) : List WROp → input_curl
  | [] => c
  | op :: ops => wr_run (wr_step c op) ops

/-- The largest write length occurring in a trace (0 when there is
none): the "size of one incoming write" of claim C3. -/
def wr_max_write : List WROp → Nat
  | [] => 0
  | WROp.write ptr :: ops => max ptr.length (wr_max_write ops)
  | WROp.readOp _ :: ops => wr_max_write ops

/-- A consumer-side operation for claim C4. -/
inductive ConsumerOp where
  | readOp (n : Nat)
  | seekOp (off : Int) (whence : Int)
  | tagOp
  | checkOp

/-- Apply one consumer operation to the stream state; calls that block
(`none` results, or a seek waiting for `ready`) contribute the state at
the point they stop. -/
def consumer_step (c : input_curl) : ConsumerOp → input_curl
  | .readOp n =>
    match input_curl_read c n with
    | some (_, _, c') => c'
    | none => c
  | .seekOp off wh =>
    match input_curl_seek c off wh with
    | .ok c' => c'
    | .fail c' => c'
    | .pending c' => c'
    | .assertviol => c
  | .tagOp => (input_curl_tag c).2
  | .checkOp => (input_curl_check c).2

/-- Run a sequence of consumer operations. -/
def consumer_run (c : input_curl) : List ConsumerOp → input_curl
  | [] => c
  | op :: ops => consumer_run (consumer_step c op) ops

/-- Whether a seek call on state `c` re-initialises the HTTP transfer
(reaches the `pending` wait with a fresh easy handle). -/
def seek_restarts (c : input_curl) (off : Int) (wh : Int) : Bool :=
  match input_curl_seek c off wh with
  | .pending _ => true
  | _ => false

/-- Whether a trace of consumer operations contains no seek that
re-initialises the transfer (evaluated along the run). -/
def no_restart : input_curl → List ConsumerOp → Bool
  | _, [] => true
  | c, op :: ops =>
    (match op with
     | ConsumerOp.seekOp off wh => !seek_restarts c off wh
     | _ => true) && no_restart (consumer_step c op) ops

/-!  Concrete states used by the witnesses and counterexamples. -/

/-- A ready stream whose transfer has completed after delivering one
byte that is still buffered. -/
def sample_stream : input_curl :=
  { input_curl.make "http://x".toList with
    ready := true, buffers := [CurlInputBuffer.make [7] 1] }

/-- `sample_stream` after one read of one byte. -/
def sample_stream_after : input_curl :=
  match run_reads sample_stream [1] with
  | some (_, c') => c'
  | none => sample_stream

/-- A live, empty stream (as right after open, with the transfer
running). -/
def c2_state : input_curl :=
  { input_curl.make "http://x".toList with easy := true }

/-- A paused live stream holding one single-byte buffer. -/
def c2_resume_state : input_curl :=
  { input_curl.make "http://x".toList with
    easy := true, paused := true, buffers := [CurlInputBuffer.make [5] 1] }

/-- `c2_resume_state` after a read of one byte (which schedules the
resume). -/
def c2_resume_after : input_curl :=
  match input_curl_read c2_resume_state 1 with
  | some (_, _, c') => c'
  | none => c2_resume_state

/-- A completed, ready, seekable stream at EOF: easy handle cleared,
buffers drained, offset = size = 10. -/
def c4_state : input_curl :=
  { input_curl.make "http://x".toList with
    ready := true, seekable := true, size := 10, offset := 10 }

/-- A stream that is not yet ready. -/
def c5_state : input_curl := input_curl.make "http://x".toList

/-- A ready, seekable stream with unknown size. -/
def c5_witness_state : input_curl :=
  { input_curl.make "http://x".toList with ready := true, seekable := true }

/-- A ready, seekable live stream in mid-transfer at offset 10 of 20. -/
def c6_state : input_curl :=
  { input_curl.make "http://x".toList with
    ready := true, seekable := true, easy := true, size := 20, offset := 10 }

/-- A ready, seekable live stream at offset 0 with unknown size. -/
def c6_witness_state : input_curl :=
  { input_curl.make "http://x".toList with
    ready := true, seekable := true, easy := true }

/-- `c6_witness_state` after `seek(5, SEEK_SET)` reaches the wait for
`ready`. -/
def c6_witness_after : input_curl :=
  match input_curl_seek c6_witness_state 5 0 with
  | .pending c' => c'
  | _ => input_curl.make []

/-- Header lines delivering `icy-metaint` and then `Accept-Ranges`. -/
def c7_lines : List (List Char) :=
  ["icy-metaint: 100".toList, "Accept-Ranges: bytes".toList]

/-- Total of the chunk sizes of a buffer list
(`curl_total_buffer_size` on a bare list). -/
def buffers_total (bs : List CurlInputBuffer) : Nat :=
  (bs.map CurlInputBuffer.TotalSize).sum

/-!  Helper lemmas. -/

/-- A successful `strncmp` against a NUL-free pattern of length `n`
means the pattern is a prefix of the string. -/
theorem strncmp_eq_then_starts_with : ∀ (pat url : List Char),
    (∀ ch ∈ pat, ch.toNat ≠ 0) → strncmp_eq url pat pat.length = true →
    pat <+: url := by
  intro pat
  induction pat with
  | nil => intro url _ _; exact List.nil_prefix
  | cons p ps ih =>
    intro url hnz h
    cases url with
    | nil =>
      simp only [List.length_cons, strncmp_eq, beq_iff_eq] at h
      exact absurd h (hnz p (by simp))
    | cons a as =>
      simp only [List.length_cons, strncmp_eq] at h
      by_cases hab : a = p
      · subst hab
        rw [if_pos rfl, if_neg (hnz a (by simp))] at h
        obtain ⟨t, ht⟩ := ih as (fun ch hch => hnz ch (by simp [hch])) h
        exact ⟨t, by rw [List.cons_append, ht]⟩
      · rw [if_neg hab] at h
        exact absurd h (by simp)

/-- One header line preserves the invariant "an active ICY parser makes
the stream non-seekable". -/
theorem header_step_icy_not_seekable (l : List Char) (c : input_curl)
    (h : c.icy.IsDefined = true → c.seekable = false) :
    (input_curl_headerfunction l c).icy.IsDefined = true →
    (input_curl_headerfunction l c).seekable = false := by
  unfold input_curl_headerfunction
  rcases hk : l.findIdx? (fun ch => ch == ':') with _ | k
  · exact h
  · dsimp only
    split_ifs <;>
      simp_all [IcyMetaDataParser.IsDefined, IcyMetaDataParser.Start]

/-!  Claims. -/

/-- Claim C7: for every sequence of response header lines processed by
the header callback, whenever the ICY metadata parser is active the
stream's `seekable` flag is false: an `icy-metaint` header with a
positive stride forces `seekable` to false, and a later `Accept-Ranges`
header does not set it back to true. -/
theorem C7_icy_active_never_seekable (ls : List (List Char)) (c : input_curl)
    (h : c.icy.IsDefined = true → c.seekable = false) :
    (process_headers ls c).icy.IsDefined = true →
    (process_headers ls c).seekable = false := by
  induction ls generalizing c with
  | nil => exact h
  | cons l ls ih =>
    simp only [process_headers, List.foldl_cons] at *
    exact ih _ (header_step_icy_not_seekable l c h)

/-- Witness for C7: after an `icy-metaint: 100` header and a later
`Accept-Ranges: bytes` header the stream is still not seekable. -/
theorem C7_witness :
    (process_headers c7_lines (input_curl.make "http://x".toList)).seekable
      = false :=
  C7_icy_active_never_seekable c7_lines (input_curl.make "http://x".toList)
    (by decide) (by decide)

/-- Claim C8: for every URI that does not begin with the literal prefix
`http://`, `input_curl_open` returns the "not mine" sentinel (NULL
stream with no error set) without creating a stream or contacting the
I/O thread. -/
theorem C8_open_rejects_other_schemes (url : List Char)
    (h : ¬("http://".toList <+: url)) : input_curl_open url = .notMine := by
  unfold input_curl_open
  split
  · rfl
  · rename_i hs
    rw [Decidable.not_not] at hs
    have h7 : ("http://".toList).length = 7 := by decide
    rw [← h7] at hs
    exact absurd (strncmp_eq_then_starts_with _ url (by decide) hs) h

/-- Witness for C8: `open("ftp://x")` yields the "not mine" sentinel. -/
theorem C8_witness : input_curl_open "ftp://x".toList = .notMine :=
  C8_open_rejects_other_schemes "ftp://x".toList (by decide)

/-- Claim C9: a timeout reported by `curl_multi_timeout` in `[0, 10)` is
clamped to 10 ms before being handed to the event loop; a negative
timeout disables the deadline check; any other value is passed through
unchanged. -/
theorem C9_timeout_handling (cs : CurlSockets) (now timeout2 : Int) :
    (0 ≤ timeout2 ∧ timeout2 < 10 →
      (cs.PrepareSockets now timeout2).1 = 10) ∧
    (timeout2 < 0 →
      (cs.PrepareSockets now timeout2).2.have_timeout = false ∧
      ∀ t, (cs.PrepareSockets now timeout2).2.CheckSockets t = false) ∧
    (10 ≤ timeout2 → (cs.PrepareSockets now timeout2).1 = timeout2) := by
  unfold CurlSockets.PrepareSockets CurlSockets.CheckSockets
  refine ⟨fun h => ?_, fun h => ?_, fun h => ?_⟩
  · dsimp only
    rw [if_pos h]
  · constructor
    · dsimp only
      rw [if_neg (by omega)]
      simp
      omega
    · intro t
      dsimp only
      rw [if_neg (by omega)]
      simp
      omega
  · dsimp only
    rw [if_neg (by omega)]

/-- Witness for C9: timeout 5 is clamped to 10, timeout -1 disables the
deadline, timeout 50 passes through. -/
theorem C9_witness :
    (CurlSockets.PrepareSockets ⟨false, 0⟩ 0 5).1 = 10 ∧
    (CurlSockets.PrepareSockets ⟨false, 0⟩ 0 (-1)).2.have_timeout = false ∧
    (CurlSockets.PrepareSockets ⟨false, 0⟩ 0 50).1 = 50 :=
  ⟨(C9_timeout_handling ⟨false, 0⟩ 0 5).1 (by decide),
   ((C9_timeout_handling ⟨false, 0⟩ 0 (-1)).2.1 (by decide)).1,
   (C9_timeout_handling ⟨false, 0⟩ 0 50).2.2 (by decide)⟩

/-- Claim C10: every `memcpy` into the 64-byte stack arrays of the
header callback is in bounds: the name copy happens only when the colon
position is below 64, and the value copies of the `content-length` and
`icy-metaint` branches happen only when `end - header` is below 64,
which implies `end - value` is below 64; lines failing these checks are
ignored without any copy.  Each copy length (and hence the index of the
following NUL store) is below 64. -/
theorem C10_header_copies_in_bounds (l : List Char) (n : Nat)
    (h : n ∈ header_copy_lengths l) : n < 64 := by
  unfold header_copy_lengths at h
  split at h
  · simp at h
  · rename_i k hk
    split at h
    · simp at h
    · rename_i h64
      dsimp only at h
      rcases List.mem_cons.mp h with rfl | h2
      · omega
      · split at h2
        · rename_i hcond
          simp only [List.mem_singleton] at h2
          omega
        · simp at h2

/-- Witness for C10: the name copy of `Content-Length: 42` has length
14, within bounds. -/
theorem C10_witness : (14 : Nat) < 64 :=
  C10_header_copies_in_bounds "Content-Length: 42".toList 14 (by decide)

/-- Counterexample for C5: on a stream that is not ready, `seek` does
not return a failure — it trips the `assert(is->ready)` instead
(`assertviol`, which is distinct from the `fail` return). -/
theorem C5_counterexample :
    c5_state.ready = false ∧
    input_curl_seek c5_state 5 0 = SeekResult.assertviol := by
  constructor
  · rfl
  · rfl

/-- Claim C5 (amended): given the asserted precondition that the stream
is ready (and the reachable-state invariant that the offset is
non-negative), `seek` returns a failure, without blocking or starting a
transfer and with the stream unchanged, whenever `whence` is `SEEK_END`
and the size is unknown, or the computed absolute target offset is
negative.  The not-ready case is an assertion violation, not a returned
failure. -/
theorem C5_amended_seek_failures (c : input_curl) (off wh : Int)
    (hr : c.ready = true) (ho : 0 ≤ c.offset)
    (h : (wh = 2 ∧ c.size < 0) ∨
         (∃ t, seek_target c off wh = some t ∧ t < 0)) :
    input_curl_seek c off wh = .fail c := by
  unfold input_curl_seek
  rw [if_neg (by simp [hr])]
  have hnoop : ¬(wh = 0 ∧ off = c.offset) := by
    rcases h with ⟨h2, _⟩ | ⟨t, ht, htneg⟩
    · rintro ⟨h0, -⟩
      omega
    · rintro ⟨h0, hoff⟩
      rw [h0] at ht
      unfold seek_target at ht
      rw [if_pos rfl] at ht
      rw [Option.some_inj] at ht
      omega
  rw [if_neg hnoop]
  by_cases hsk : c.seekable = true
  · rw [if_neg (by simp [hsk])]
    rcases h with ⟨h2, hsz⟩ | ⟨t, ht, htneg⟩
    · have : seek_target c off wh = none := by
        unfold seek_target
        rw [if_neg (by omega), if_neg (by omega), if_pos h2, if_pos hsz]
      rw [this]
    · rw [ht]
      dsimp only
      rw [if_pos htneg]
  · rw [if_pos (by simp [Bool.not_eq_true] at hsk ⊢; exact hsk)]

/-- Witness for C5 (amended): a ready, seekable stream with unknown
size rejects `seek(-3, SEEK_END)`. -/
theorem C5_witness :
    input_curl_seek c5_witness_state (-3) 2 = .fail c5_witness_state :=
  C5_amended_seek_failures c5_witness_state (-3) 2 rfl (by decide)
    (Or.inl (by decide))

/-- Counterexample for C6: a seek to target offset 0 that cannot be
satisfied from the buffers re-initialises the transfer (result
`pending`, easy handle live) with NO `Range` request header, refuting
"for every target offset including zero". -/
theorem C6_counterexample :
    seek_pending_info (input_curl_seek c6_state 0 0) =
      some (0, none, true) := by
  rfl

/-- Claim C6 (amended): whenever a seek re-initialises the HTTP
transfer (target not reachable by buffer fast-forward and different
from the stream size), the new transfer carries a
`Range: target-` request header exactly when the target offset is
positive; a seek to target 0 re-initialises the transfer without a
`Range` header. -/
theorem C6_amended_range_on_restart (c : input_curl) (off wh : Int)
    (c' : input_curl) (h : input_curl_seek c off wh = .pending c') :
    c'.easy = true ∧
    ((0 < c'.offset ∧ c'.range = some (toString c'.offset ++ "-")) ∨
      (c'.offset = 0 ∧ c'.range = none)) := by
  unfold input_curl_seek at h
  split_ifs at h
  split at h
  · exact absurd h (by simp)
  · rename_i target htarget
    split_ifs at h
    rename_i hneg
    dsimp only at h
    split_ifs at h with hff heof hpos
    · cases h
      refine ⟨rfl, Or.inl ⟨?_, rfl⟩⟩
      simpa [input_curl_easy_init, input_curl_easy_free] using hpos
    · cases h
      refine ⟨rfl, Or.inr ⟨?_, rfl⟩⟩
      simp only [input_curl_easy_init, input_curl_easy_free] at hpos ⊢
      omega

/-!  Lemmas about the read path. -/

/-- `buffers_total` of a cons. -/
theorem buffers_total_cons (b : CurlInputBuffer) (bs : List CurlInputBuffer) :
    buffers_total (b :: bs) = b.TotalSize + buffers_total bs := by
  simp [buffers_total]

/-- `curl_total_buffer_size` is `buffers_total` of the buffer list. -/
theorem curl_total_buffer_size_eq (c : input_curl) :
    curl_total_buffer_size c = buffers_total c.buffers := rfl

/-- `fill_buffer` either leaves the stream unchanged or only clears the
postponed error. -/
theorem fill_buffer_cases (c : input_curl) (b : Bool) (c' : input_curl)
    (h : fill_buffer c = some (b, c')) :
    c' = c ∨ c' = { c with postponed_error := false } := by
  unfold fill_buffer at h
  split_ifs at h
  · cases h
    right
    rfl
  · cases h
    left
    rfl

/-- The `done` arm of the audio step keeps the total buffer size within
the front buffer plus the rest. -/
theorem rfb_data_step_done (icy : IcyMetaDataParser) (buf : CurlInputBuffer)
    (rest : List CurlInputBuffer) (len nb : Nat) (nb2 : Nat)
    (i2 : IcyMetaDataParser) (bs2 : List CurlInputBuffer)
    (h : rfb_data_step icy buf rest len nb = .done nb2 i2 bs2) :
    buffers_total bs2 ≤ buf.TotalSize + buffers_total rest := by
  unfold rfb_data_step at h
  dsimp only at h
  split_ifs at h <;> cases h <;>
    simp [buffers_total_cons, CurlInputBuffer.TotalSize]

/-- The `cont` arm of the audio step preserves the front buffer's total
size. -/
theorem rfb_data_step_cont (icy : IcyMetaDataParser) (buf : CurlInputBuffer)
    (rest : List CurlInputBuffer) (len nb : Nat)
    (i2 : IcyMetaDataParser) (b2 : CurlInputBuffer) (len2 nb2 : Nat)
    (h : rfb_data_step icy buf rest len nb = .cont i2 b2 len2 nb2) :
    b2.TotalSize = buf.TotalSize := by
  unfold rfb_data_step at h
  dsimp only at h
  split_ifs at h <;> cases h <;> rfl

/-- The `done` arm of the metadata step keeps the total buffer size
within the front buffer plus the rest. -/
theorem rfb_meta_step_done (icy : IcyMetaDataParser) (buf : CurlInputBuffer)
    (rest : List CurlInputBuffer) (len nb : Nat) (nb2 : Nat)
    (i2 : IcyMetaDataParser) (bs2 : List CurlInputBuffer)
    (h : rfb_meta_step icy buf rest len nb = .done nb2 i2 bs2) :
    buffers_total bs2 ≤ buf.TotalSize + buffers_total rest := by
  unfold rfb_meta_step at h
  dsimp only at h
  split_ifs at h <;> cases h <;>
    simp [buffers_total_cons, CurlInputBuffer.TotalSize]

/-- The `cont` arm of the metadata step preserves the front buffer's
total size. -/
theorem rfb_meta_step_cont (icy : IcyMetaDataParser) (buf : CurlInputBuffer)
    (rest : List CurlInputBuffer) (len nb : Nat)
    (i2 : IcyMetaDataParser) (b2 : CurlInputBuffer) (len2 nb2 : Nat)
    (h : rfb_meta_step icy buf rest len nb = .cont i2 b2 len2 nb2) :
    b2.TotalSize = buf.TotalSize := by
  unfold rfb_meta_step at h
  dsimp only at h
  split_ifs at h <;> cases h <;> rfl

/-- The read loop never grows the total buffer size beyond the front
buffer plus the rest. -/
theorem rfb_loop_total : ∀ (fuel : Nat) (icy : IcyMetaDataParser)
    (buf : CurlInputBuffer) (rest : List CurlInputBuffer) (len nb : Nat),
    buffers_total (rfb_loop fuel icy buf rest len nb).2.2 ≤
      buf.TotalSize + buffers_total rest := by
  intro fuel
  induction fuel with
  | zero =>
    intro icy buf rest len nb
    simp [rfb_loop, buffers_total_cons]
  | succ fuel ih =>
    intro icy buf rest len nb
    unfold rfb_loop
    cases h1 : rfb_data_step icy buf rest len nb with
    | done nb2 i2 bs2 =>
      dsimp only
      exact rfb_data_step_done icy buf rest len nb nb2 i2 bs2 h1
    | cont i2 b2 len2 nb2 =>
      dsimp only
      cases h2 : rfb_meta_step i2 b2 rest len2 nb2 with
      | done nb3 i3 bs3 =>
        dsimp only
        calc buffers_total bs3 ≤ b2.TotalSize + buffers_total rest :=
              rfb_meta_step_done i2 b2 rest len2 nb2 nb3 i3 bs3 h2
          _ = buf.TotalSize + buffers_total rest := by
              rw [rfb_data_step_cont icy buf rest len nb i2 b2 len2 nb2 h1]
      | cont i3 b3 len3 nb3 =>
        dsimp only
        calc buffers_total (rfb_loop fuel i3 b3 rest len3 nb3).2.2
              ≤ b3.TotalSize + buffers_total rest := ih i3 b3 rest len3 nb3
          _ = buf.TotalSize + buffers_total rest := by
              rw [rfb_meta_step_cont i2 b2 rest len2 nb2 i3 b3 len3 nb3 h2,
                  rfb_data_step_cont icy buf rest len nb i2 b2 len2 nb2 h1]

/-- `read_from_buffer` never grows the total buffer size. -/
theorem read_from_buffer_total (icy : IcyMetaDataParser)
    (buffers : List CurlInputBuffer) (len : Nat) :
    buffers_total (read_from_buffer icy buffers len).2.2 ≤
      buffers_total buffers := by
  unfold read_from_buffer
  cases buffers with
  | nil => simp
  | cons buf rest =>
    dsimp only
    rw [buffers_total_cons]
    exact rfb_loop_total _ icy buf rest _ 0

/-- The inner drain loop never grows the total buffer size. -/
theorem read_drain_total : ∀ (fuel : Nat) (icy : IcyMetaDataParser)
    (buffers : List CurlInputBuffer) (size nb : Nat),
    buffers_total (read_drain fuel icy buffers size nb).2.2 ≤
      buffers_total buffers := by
  intro fuel
  induction fuel with
  | zero => intro icy buffers size nb; simp [read_drain]
  | succ fuel ih =>
    intro icy buffers size nb
    unfold read_drain
    split
    · exact le_refl _
    · exact le_trans (ih _ _ _ _) (read_from_buffer_total icy buffers size)

/-- The do-while loop of `input_curl_read` returns a state with the
same `offset`, `easy` and `paused` fields and no more buffered bytes
than it started with. -/
theorem read_do_while_spec : ∀ (fuel : Nat) (c : input_curl) (size : Nat)
    (b : Bool) (r : Nat) (c' : input_curl),
    read_do_while fuel c size = some (b, r, c') →
    c'.offset = c.offset ∧ c'.easy = c.easy ∧ c'.paused = c.paused ∧
    buffers_total c'.buffers ≤ buffers_total c.buffers := by
  intro fuel
  induction fuel with
  | zero => intro c size b r c' h; cases h
  | succ fuel ih =>
    intro c size b r c' h
    unfold read_do_while at h
    rcases hf : fill_buffer c with _ | ⟨bf, c2⟩ <;> rw [hf] at h
    · cases h
    · have hc2 : c2 = c ∨ c2 = { c with postponed_error := false } :=
        fill_buffer_cases c bf c2 hf
      have hfields : c2.offset = c.offset ∧ c2.easy = c.easy ∧
          c2.paused = c.paused ∧ c2.buffers = c.buffers := by
        rcases hc2 with rfl | rfl <;> exact ⟨rfl, rfl, rfl, rfl⟩
      cases bf with
      | false =>
        cases h
        exact ⟨hfields.1, hfields.2.1, hfields.2.2.1, by rw [hfields.2.2.2]⟩
      | true =>
        dsimp only at h
        split at h
        · have := ih _ _ _ _ _ h
          refine ⟨by rw [this.1]; exact hfields.1,
                  by rw [this.2.1]; exact hfields.2.1,
                  by rw [this.2.2.1]; exact hfields.2.2.1, ?_⟩
          calc buffers_total c'.buffers
              ≤ _ := this.2.2.2
            _ ≤ buffers_total c2.buffers := read_drain_total _ _ _ _ _
            _ = buffers_total c.buffers := by rw [hfields.2.2.2]
        · cases h
          refine ⟨hfields.1, hfields.2.1, hfields.2.2.1, ?_⟩
          calc buffers_total (read_drain _ c2.icy c2.buffers size 0).2.2
              ≤ buffers_total c2.buffers := read_drain_total _ _ _ _ _
            _ = buffers_total c.buffers := by rw [hfields.2.2.2]

/-- `copy_icy_tag` only moves the tag; offset, buffers, easy handle and
pause flag are untouched. -/
theorem copy_icy_tag_fields (c : input_curl) :
    (copy_icy_tag c).offset = c.offset ∧
    (copy_icy_tag c).easy = c.easy ∧
    (copy_icy_tag c).buffers = c.buffers ∧
    (copy_icy_tag c).paused = c.paused := by
  unfold copy_icy_tag IcyMetaDataParser.ReadTag
  dsimp only
  cases c.icy.tag with
  | none => exact ⟨rfl, rfl, rfl, rfl⟩
  | some title =>
    dsimp only
    cases c.meta_name <;> simp

/-- `input_curl_read`, when it returns, advances `offset` by exactly
its return value, does not touch the easy handle, and never grows the
total buffered size. -/
theorem input_curl_read_spec (c : input_curl) (n : Nat) (r : Nat) (f : Bool)
    (c' : input_curl) (h : input_curl_read c n = some (r, f, c')) :
    c'.offset = c.offset + (r : Int) ∧ c'.easy = c.easy ∧
    buffers_total c'.buffers ≤ buffers_total c.buffers := by
  unfold input_curl_read at h
  rcases hw : read_do_while 2 c n with _ | ⟨b, nb, c2⟩ <;> rw [hw] at h
  · cases h
  · have hspec := read_do_while_spec 2 c n b nb c2 hw
    cases b with
    | false =>
      cases h
      exact ⟨by rw [hspec.1]; simp, hspec.2.1, hspec.2.2.2⟩
    | true =>
      dsimp only at h
      have hct := copy_icy_tag_fields c2
      split_ifs at h <;> cases h <;>
        exact ⟨by simp [hct.1, hspec.1], by simp [hct.2.1, hspec.2.1],
          by first
            | exact hspec.2.2.2
            | exact le_trans (le_of_eq (congrArg buffers_total hct.2.2.1))
                hspec.2.2.2⟩

/-- When `input_curl_read` schedules a resume (`resumed = true`), the
total buffered size of the resulting state (unchanged since the resume
decision) is strictly below `CURL_RESUME_AT`. -/
theorem input_curl_read_resumed (c : input_curl) (n : Nat) (r : Nat)
    (c' : input_curl) (h : input_curl_read c n = some (r, true, c')) :
    curl_total_buffer_size c' < CURL_RESUME_AT := by
  unfold input_curl_read at h
  rcases hw : read_do_while 2 c n with _ | ⟨b, nb, c2⟩ <;> rw [hw] at h
  · cases h
  · cases b with
    | false => cases h
    | true =>
      dsimp only at h
      split_ifs at h with h1 h2 h3
      · cases h
        exact h2.2
      · simp at h
      · cases h
        exact h3.2
      · simp at h

/-- A read on a stream with no buffered chunks can only return the
early 0 path: the buffer list stays empty and the easy handle, offset,
buffers and pause flag are untouched (at most the error is cleared). -/
theorem input_curl_read_of_nil (c : input_curl) (n : Nat) (r : Nat)
    (f : Bool) (c' : input_curl) (hnil : c.buffers = [])
    (h : input_curl_read c n = some (r, f, c')) :
    c' = c ∨ c' = { c with postponed_error := false } := by
  unfold input_curl_read at h
  rcases hw : read_do_while 2 c n with _ | ⟨b, nb, c2⟩ <;> rw [hw] at h
  · cases h
  · unfold read_do_while at hw
    rcases hf : fill_buffer c with _ | ⟨bf, c3⟩ <;> rw [hf] at hw
    · cases hw
    · have hc3 : c3 = c ∨ c3 = { c with postponed_error := false } :=
        fill_buffer_cases c bf c3 hf
      have hbf : bf = false := by
        unfold fill_buffer at hf
        split_ifs at hf <;> cases hf
        · rfl
        · simp [hnil]
      subst hbf
      cases hw
      cases h
      exact hc3

/-- Claim C1: for every stream on which no seek is performed, each
successful read call increases the stream's `offset` by exactly the
number of audio bytes it returns (metadata bytes consumed by the ICY
parser are counted in neither), so the cumulative sum of read return
values equals the current offset minus the offset at the start of the
read sequence. -/
theorem C1_read_offset_accounting :
    (∀ (c : input_curl) (n r : Nat) (f : Bool) (c' : input_curl),
      input_curl_read c n = some (r, f, c') →
      c'.offset = c.offset + (r : Int)) ∧
    (∀ (c : input_curl) (ns : List Nat) (tot : Nat) (c' : input_curl),
      run_reads c ns = some (tot, c') →
      c'.offset = c.offset + (tot : Int)) := by
  constructor
  · intro c n r f c' h
    exact (input_curl_read_spec c n r f c' h).1
  · intro c ns
    induction ns generalizing c with
    | nil =>
      intro tot c' h
      cases h
      simp
    | cons n ns ih =>
      intro tot c' h
      unfold run_reads at h
      rcases hr : input_curl_read c n with _ | ⟨r1, f1, c1⟩ <;> rw [hr] at h
      · cases h
      · dsimp only at h
        rcases hrr : run_reads c1 ns with _ | ⟨t2, c2⟩ <;> rw [hrr] at h
        · cases h
        · dsimp only at h
          cases h
          have h1 := (input_curl_read_spec c n r1 f1 c1 hr).1
          have h2 := ih c1 t2 _ hrr
          rw [h2, h1]
          push_cast
          ring

/-- Witness for C1: one read of one byte advances the offset by the one
byte it returns. -/
theorem C1_witness :
    sample_stream_after.offset = sample_stream.offset + (1 : Int) :=
  C1_read_offset_accounting.2 sample_stream [1] 1 sample_stream_after rfl

/-- Counterexample for C2: the write callback sets `paused` on a stream
buffering 0 bytes (below `CURL_MAX_BUFFERED`), because the pause
decision adds the incoming length to the buffered total and the
incoming chunk is not copied. -/
theorem C2_counterexample :
    (input_curl_writefunction [] (512 * 1024) 1 c2_state).2.paused = true ∧
    c2_state.paused = false ∧
    curl_total_buffer_size c2_state < CURL_MAX_BUFFERED := by
  refine ⟨rfl, rfl, ?_⟩
  decide

/-- Claim C2 (amended): at the moment the write callback sets the
paused flag, the total buffered byte count PLUS the incoming length is
at least `CURL_MAX_BUFFERED` (the incoming chunk is not appended, so
the buffered total itself can be below the mark); and at the moment a
read call schedules a resume, the total buffered byte count is strictly
below `CURL_RESUME_AT`. -/
theorem C2_amended_pause_resume_bounds :
    (∀ (ptr : List Nat) (size nmemb : Nat) (c : input_curl),
      (input_curl_writefunction ptr size nmemb c).2.paused = true →
      c.paused = false →
      CURL_MAX_BUFFERED ≤ curl_total_buffer_size c + size * nmemb ∧
      (input_curl_writefunction ptr size nmemb c).2.buffers = c.buffers) ∧
    (∀ (c : input_curl) (n r : Nat) (c' : input_curl),
      input_curl_read c n = some (r, true, c') →
      curl_total_buffer_size c' < CURL_RESUME_AT) := by
  constructor
  · intro ptr size nmemb c hp hnp
    unfold input_curl_writefunction at hp ⊢
    dsimp only at hp ⊢
    split_ifs at hp ⊢ with h1 h2
    · rw [hnp] at hp
      cases hp
    · exact ⟨h2, rfl⟩
    · dsimp only at hp
      rw [hnp] at hp
      cases hp
  · intro c n r c' h
    exact input_curl_read_resumed c n r c' h

/-- Witness for C2 (amended): the pause in `C2_counterexample` has
buffered + incoming at the mark, and the resume scheduled by a read on
a paused stream leaves the buffered total below `CURL_RESUME_AT`. -/
theorem C2_witness :
    CURL_MAX_BUFFERED ≤ curl_total_buffer_size c2_state + 512 * 1024 * 1 ∧
    curl_total_buffer_size c2_resume_after < CURL_RESUME_AT :=
  ⟨(C2_amended_pause_resume_bounds.1 [] (512 * 1024) 1 c2_state rfl rfl).1,
   C2_amended_pause_resume_bounds.2 c2_resume_state 1 1 c2_resume_after rfl⟩

/-- One write or read step preserves "total buffered below
`CURL_MAX_BUFFERED`". -/
theorem wr_step_total_lt (c : input_curl) (op : WROp)
    (h : curl_total_buffer_size c < CURL_MAX_BUFFERED) :
    curl_total_buffer_size (wr_step c op) < CURL_MAX_BUFFERED := by
  cases op with
  | write ptr =>
    unfold wr_step input_curl_writefunction
    dsimp only
    split_ifs with h1 h2
    · exact h
    · exact h
    · unfold curl_total_buffer_size at h2 ⊢
      dsimp only
      simp only [List.map_append, List.sum_append, List.map_cons,
        List.sum_cons, List.map_nil, List.sum_nil,
        CurlInputBuffer.make, CurlInputBuffer.TotalSize]
      omega
  | readOp n =>
    unfold wr_step
    dsimp only
    rcases hr : input_curl_read c n with _ | ⟨r1, f1, c1⟩ <;> dsimp only
    · exact h
    · have := (input_curl_read_spec c n r1 f1 c1 hr).2.2
      rw [curl_total_buffer_size_eq] at h ⊢
      omega

/-- Every interleaving of writes and reads preserves "total buffered
below `CURL_MAX_BUFFERED`". -/
theorem wr_run_total_lt (ops : List WROp) : ∀ (c : input_curl),
    curl_total_buffer_size c < CURL_MAX_BUFFERED →
    curl_total_buffer_size (wr_run c ops) < CURL_MAX_BUFFERED := by
  induction ops with
  | nil => intro c h; exact h
  | cons op ops ih =>
    intro c h
    exact ih (wr_step c op) (wr_step_total_lt c op h)

/-- Claim C3: for every stream and every interleaving of write-callback
appends and consumer reads, the sum of the total sizes of all chunks in
the buffer queue never exceeds `CURL_MAX_BUFFERED` plus the size of one
incoming write (the code in fact keeps it strictly below
`CURL_MAX_BUFFERED`). -/
theorem C3_buffer_bound (url : List Char) (ops : List WROp) :
    curl_total_buffer_size
        (wr_run (input_curl_easy_init (input_curl.make url)) ops) ≤
      CURL_MAX_BUFFERED + wr_max_write ops := by
  have h0 : curl_total_buffer_size (input_curl_easy_init (input_curl.make url))
      < CURL_MAX_BUFFERED := by
    show (0 : Nat) < CURL_MAX_BUFFERED
    decide
  have hlt := wr_run_total_lt ops _ h0
  omega

/-- Fast-forwarding an empty buffer list changes nothing. -/
theorem seek_fast_forward_nil : ∀ (fuel : Nat) (cur target : Int),
    seek_fast_forward fuel [] cur target = ([], cur) := by
  intro fuel cur target
  cases fuel with
  | zero => rfl
  | succ fuel =>
    unfold seek_fast_forward
    split <;> rfl

/-- `input_curl_easy_free` always leaves the easy handle cleared. -/
theorem easy_free_easy (c : input_curl) :
    (input_curl_easy_free c).easy = false := by
  unfold input_curl_easy_free
  split
  · rename_i hne
    simpa using hne
  · rfl

/-- A failing seek leaves the stream untouched. -/
theorem seek_fail_state (c : input_curl) (off wh : Int) (c1 : input_curl)
    (h : input_curl_seek c off wh = .fail c1) : c1 = c := by
  unfold input_curl_seek at h
  split_ifs at h
  · split at h
    · cases h
      rfl
    · split_ifs at h
      · cases h
        rfl
      · dsimp only at h
        split_ifs at h <;> cases h
  · cases h
    rfl

/-- A seek that returns `true` on a stream at EOF leaves the easy
handle cleared and the buffers empty (it either no-ops, fast-forwards
nothing, or short-circuits at target = size without a new transfer). -/
theorem seek_ok_eof (c : input_curl) (off wh : Int) (c1 : input_curl)
    (heasy : c.easy = false) (hbuf : c.buffers = [])
    (h : input_curl_seek c off wh = .ok c1) :
    c1.easy = false ∧ c1.buffers = [] := by
  unfold input_curl_seek at h
  split_ifs at h
  · cases h
    exact ⟨heasy, hbuf⟩
  · rw [hbuf] at h
    simp only [seek_fast_forward_nil] at h
    split at h
    · cases h
    · split_ifs at h <;> cases h
      · exact ⟨heasy, rfl⟩
      · exact ⟨easy_free_easy _, rfl⟩

/-- `input_curl_eof` in terms of the state fields. -/
theorem input_curl_eof_iff (c : input_curl) :
    input_curl_eof c = true ↔ (c.easy = false ∧ c.buffers = []) := by
  unfold input_curl_eof
  simp [List.isEmpty_iff]

/-- One consumer operation that does not restart the transfer preserves
EOF. -/
theorem consumer_step_eof (c : input_curl) (op : ConsumerOp)
    (heof : input_curl_eof c = true)
    (hnr : ∀ off wh, op = ConsumerOp.seekOp off wh →
      seek_restarts c off wh = false) :
    input_curl_eof (consumer_step c op) = true := by
  obtain ⟨heasy, hbuf⟩ := (input_curl_eof_iff c).mp heof
  cases op with
  | readOp n =>
    simp only [consumer_step]
    cases hr : input_curl_read c n with
    | none => exact heof
    | some p =>
      obtain ⟨r1, f1, c1⟩ := p
      rcases input_curl_read_of_nil c n r1 f1 c1 hbuf hr with rfl | rfl
      · exact heof
      · exact heof
  | tagOp => exact heof
  | checkOp => exact heof
  | seekOp off wh =>
    simp only [consumer_step]
    cases hs : input_curl_seek c off wh with
    | ok c1 =>
      exact (input_curl_eof_iff c1).mpr (seek_ok_eof c off wh c1 heasy hbuf hs)
    | fail c1 =>
      rw [seek_fail_state c off wh c1 hs]
      exact heof
    | assertviol => exact heof
    | pending c1 =>
      have hres := hnr off wh rfl
      unfold seek_restarts at hres
      rw [hs] at hres
      simp at hres

/-- Counterexample for C4: on a completed, seekable stream at EOF, a
seek to offset 0 re-initialises the transfer, after which `eof` is
false again. -/
theorem C4_counterexample :
    input_curl_eof c4_state = true ∧
    input_curl_eof (consumer_step c4_state (ConsumerOp.seekOp 0 0)) = false := by
  constructor
  · rfl
  · rfl

/-- Claim C4 (amended): once `eof` is true (easy handle cleared, buffer
queue empty), it stays true under reads, tag and check calls and under
seeks that do not re-initialise the transfer; a seek whose target is
reachable neither from the buffers nor equal to the stream size
restarts the transfer and makes `eof` false again (see the
counterexample). -/
theorem C4_amended_eof_persists (ops : List ConsumerOp) : ∀ (c : input_curl),
    input_curl_eof c = true → no_restart c ops = true →
    input_curl_eof (consumer_run c ops) = true := by
  induction ops with
  | nil =>
    intro c heof _
    exact heof
  | cons op ops ih =>
    intro c heof hnr
    unfold no_restart at hnr
    rw [Bool.and_eq_true] at hnr
    unfold consumer_run
    apply ih
    · apply consumer_step_eof c op heof
      intro off wh hop
      subst hop
      simpa using hnr.1
    · exact hnr.2

/-- Witness for C4 (amended): at EOF, a read, a no-op seek, a tag fetch
and a check leave `eof` true. -/
theorem C4_witness :
    input_curl_eof
      (consumer_run c4_state
        [ConsumerOp.readOp 1, ConsumerOp.seekOp 10 0,
         ConsumerOp.tagOp, ConsumerOp.checkOp]) = true :=
  C4_amended_eof_persists
    [ConsumerOp.readOp 1, ConsumerOp.seekOp 10 0,
     ConsumerOp.tagOp, ConsumerOp.checkOp]
    c4_state rfl (by decide)

/-- Witness for C6 (amended): `seek(5, SEEK_SET)` from offset 0
re-initialises the transfer with a `Range: 5-` header. -/
theorem C6_witness :
    c6_witness_after.easy = true ∧
    ((0 < c6_witness_after.offset ∧
      c6_witness_after.range = some (toString c6_witness_after.offset ++ "-")) ∨
      (c6_witness_after.offset = 0 ∧ c6_witness_after.range = none)) :=
  C6_amended_range_on_restart c6_witness_state 5 0 c6_witness_after rfl
